import Mathlib

/-!
Shallow embedding of `custom_colormaps/__init__.py` (version 2.0):
the functions `normalize`, `convert_color`, `create_colormap` and
`create_breakpoint_colormap`, together with theorems settling the
specification claims about them.

Modelling conventions:
* Python/numpy floats are modelled as exact rationals extended with the
  IEEE non-finite values (`PFloat`).  Since `vmin`/`vmax` come from
  `np.min`/`np.max`, the division in `normalize` always involves numpy
  scalars, so a zero denominator yields `nan`/`inf` with a RuntimeWarning
  and no exception is raised.
* Python exceptions are modelled with `Except String`, carrying the
  message of the `ValueError` the code raises.
* A `matplotlib.colors.LinearSegmentedColormap` is represented by its
  `segmentdata` dictionary (`SegmentTable`); the `name` label is opaque
  and not interpreted, so it is dropped from the model.
-/

namespace CustomColormaps

/-- A Python number as `convert_color` distinguishes them:
`isinstance(elem, int)` separates `int` from `float`.  The numeric value
is kept exact as a rational. -/
inductive PyNum where
  | int : Int → PyNum
  | float : ℚ → PyNum
deriving DecidableEq, Repr

/-- The numeric value of a Python number. -/
def PyNum.toQ : PyNum → ℚ
  | .int n => (n : ℚ)
  | .float q => q

/-- A color specification as the builders receive it: a named-color
string, or a 3-component tuple/list of numbers. -/
inductive Color where
  | named : String → Color
  | rgb : PyNum → PyNum → PyNum → Color
deriving DecidableEq, Repr

/-- The `matplotlib.colors.ColorConverter` named-color lookup, the
external collaborator of the host plotting library (spec section 9),
restricted to the color names used in this development.  The values are
the standard CSS values matplotlib resolves these names to. -/
def namedToRGB (s : String) : Option (ℚ × ℚ × ℚ) :=
  if s = "red" then some (1, 0, 0)
  else if s = "blue" then some (0, 0, 1)
  else if s = "white" then some (1, 1, 1)
  else if s = "black" then some (0, 0, 0)
  else none

/-- `ColorConverter().to_rgb` applied to a 3-tuple of numbers: the tuple
is a valid RGB triple iff every channel lies in [0, 1]; otherwise a
ValueError is raised. -/
def to_rgb3 (r g b : ℚ) : Option (ℚ × ℚ × ℚ) :=
  if 0 ≤ r ∧ r ≤ 1 ∧ 0 ≤ g ∧ g ≤ 1 ∧ 0 ≤ b ∧ b ≤ 1 then some (r, g, b)
  else none

/-- `any(isinstance(elem, int) and elem > 1 for elem in color)`,
the 8-bit heuristic of `convert_color`. -/
def hasBigInt : List PyNum → Bool
  | [] => false
  | .int n :: rest => decide (1 < n) || hasBigInt rest
  | .float _ :: rest => hasBigInt rest

/-- `convert_color(color)`: a named string resolves through the
matplotlib lookup; a tuple whose elements include an integer strictly
greater than 1 is divided componentwise by 255 and then resolved, any
other tuple is resolved directly (for a tuple, `to_rgb(str(color))`
raises and the `ast.literal_eval` fallback recovers the tuple itself, so
the observable behavior is resolution of the tuple). -/
def convert_color : Color → Option (ℚ × ℚ × ℚ)
  | .named s => namedToRGB s
  | .rgb a b c =>
    if hasBigInt [a, b, c] then
      to_rgb3 (a.toQ / 255) (b.toQ / 255) (c.toQ / 255)
    else
      to_rgb3 a.toQ b.toQ c.toQ

/-- A Python/numpy float: an exact finite rational or an IEEE
non-finite value. -/
inductive PFloat where
  | fin : ℚ → PFloat
  | posinf : PFloat
  | neginf : PFloat
  | nan : PFloat
deriving DecidableEq, Repr

/-- `normalize(value, vmin, vmax) = (value - vmin) / float(vmax - vmin)`
with IEEE division semantics for finite operands: when
`vmax - vmin = 0`, numpy produces `nan` (0/0) or `±inf` (x/0) together
with a RuntimeWarning; no exception is raised. -/
def normalize (value vmin vmax : ℚ) : PFloat :=
  if vmax - vmin = 0 then
    if value - vmin = 0 then .nan
    else if 0 < value - vmin then .posinf
    else .neginf
  else .fin ((value - vmin) / (vmax - vmin))

/-- One `(x, value-on-entry, value-on-exit)` triple of a channel
sequence. -/
abbrev Entry := PFloat × ℚ × ℚ

/-- The `segmentdata` dictionary handed to `LinearSegmentedColormap`:
one ordered sequence of triples per channel. -/
structure SegmentTable where
  red : List Entry
  green : List Entry
  blue : List Entry
deriving DecidableEq, Repr

/-- Absolute value on ℚ, written with an explicit sign test. -/
def qabs (x : ℚ) : ℚ := if x < 0 then -x else x

/-- `np.isclose(a, b)` with the default tolerances
`rtol = 1e-5`, `atol = 1e-8`: `|a - b| <= atol + rtol * |b|`. -/
def isclose (a b : ℚ) : Bool :=
  decide (qabs (a - b) ≤ 1 / 100000000 + (1 / 100000) * qabs b)

/-- `np.min` over a nonempty list (the builders raise on the empty
array before this is ever applied to one; the `[]` value is arbitrary). -/
def listMin : List ℚ → ℚ
  | [] => 0
  | x :: xs => xs.foldl min x

/-- `np.max` over a nonempty list. -/
def listMax : List ℚ → ℚ
  | [] => 0
  | x :: xs => xs.foldl max x

/-- Flattening of an (n, 2) position array into its 2n scalar values. -/
def flatten2 : List (ℚ × ℚ) → List ℚ
  | [] => []
  | (a, b) :: rest => a :: b :: flatten2 rest

/-- `np.min` over an (n, 2) position array. -/
def flatMin (l : List (ℚ × ℚ)) : ℚ := listMin (flatten2 l)

/-- `np.max` over an (n, 2) position array. -/
def flatMax (l : List (ℚ × ℚ)) : ℚ := listMax (flatten2 l)

/-- `np.linspace(0, 1, n)`: n evenly spaced values from 0 to 1 inclusive
(`[0]` for n = 1, empty for n = 0). -/
def linspace01 : Nat → List ℚ
  | 0 => []
  | 1 => [0]
  | m + 2 => (List.range (m + 2)).map fun (i : ℕ) => (i : ℚ) / (((m + 2 : ℕ) : ℚ) - 1)

/-- The default breakpoint positions: `tmp = np.linspace(0, 1, n + 1)`,
pairs `(tmp[:-1][i], tmp[1:][i])`. -/
def positionPairs (n : Nat) : List (ℚ × ℚ) :=
  (linspace01 (n + 1)).zip (linspace01 (n + 1)).tail

/-- `colors[:] = [tuple(map(lambda x: x / 255., color)) for color in colors]`
applied to one color (the `bit=True` branch); mapping division over a
string raises a TypeError. -/
def bit255 : Color → Except String Color
  | .named _ => .error "unsupported operand type for div"
  | .rgb a b c =>
    .ok (.rgb (.float (a.toQ / 255)) (.float (b.toQ / 255)) (.float (c.toQ / 255)))

/-- The `bit=True` list comprehension over all colors. -/
def bitMap : List Color → Except String (List Color)
  | [] => .ok []
  | c :: rest =>
    match bit255 c with
    | .error e => .error e
    | .ok c2 =>
      match bitMap rest with
      | .error e => .error e
      | .ok rest2 => .ok (c2 :: rest2)

/-- The emission loop of `create_colormap`: for each `(pos, color)` pair
in order, append `(normalize(pos), v, v)` to each channel, where `v` is
the corresponding channel of `convert_color(color)`.  A conversion
failure raises, discarding all output. -/
def contLoop (vmin vmax : ℚ) :
    List (ℚ × Color) → Except String (List Entry × List Entry × List Entry)
  | [] => .ok ([], [], [])
  | (pos, c) :: rest =>
    match convert_color c with
    | none => .error "Invalid RGBA argument"
    | some v =>
      match contLoop vmin vmax rest with
      | .error e => .error e
      | .ok (rs, gs, bs) =>
        let x := normalize pos vmin vmax
        .ok ((x, v.1, v.1) :: rs, (x, v.2.1, v.2.1) :: gs, (x, v.2.2, v.2.2) :: bs)

/-- `create_colormap(colors, position, bit, reverse)`:
reverse `colors` if requested; default `position` to
`np.linspace(0, 1, len(colors))`; check the lengths match; compute
`vmin`/`vmax` (raising on a zero-size array); if the first position is
close to `vmax`, reverse both `colors` and `position`; apply the
`bit=True` division if requested; run the emission loop. -/
def create_colormap (colors0 : List Color) (position? : Option (List ℚ))
    (bit : Bool) (reverse : Bool) : Except String SegmentTable :=
  let colors := if reverse then colors0.reverse else colors0
  let position := position?.getD (linspace01 colors.length)
  if position.length ≠ colors.length then
    .error "position length must be the same as colors"
  else if position.isEmpty then
    .error "zero-size array to reduction operation minimum which has no identity"
  else
    let vmin := listMin position
    let vmax := listMax position
    let colors2 := if isclose (position.headD 0) vmax then colors.reverse else colors
    let position2 := if isclose (position.headD 0) vmax then position.reverse else position
    match (if bit then bitMap colors2 else .ok colors2) with
    | .error e => .error e
    | .ok colors3 =>
      match contLoop vmin vmax (position2.zip colors3) with
      | .error e => .error e
      | .ok (rs, gs, bs) => .ok ⟨rs, gs, bs⟩

/-- The emission loop of `create_breakpoint_colormap`, carrying the
rolling incoming edge value `y0` across iterations (initially the black
sentinel): each iteration parses the pair's first color as `y1`, emits
`(normalize(start), y0, y1)` per channel, and sets `y0` to the parsed
second color; after the last pair, one trailing entry
`(normalize(last stop), y0, y1)` is emitted with the final values. -/
def breakLoop (vmin vmax : ℚ) (y0 : ℚ × ℚ × ℚ)
    (head : (ℚ × ℚ) × (Color × Color)) :
    List ((ℚ × ℚ) × (Color × Color)) →
    Except String (List Entry × List Entry × List Entry)
  | [] =>
    match convert_color head.2.1 with
    | none => .error "Invalid RGBA argument"
    | some y1 =>
      let x := normalize head.1.1 vmin vmax
      match convert_color head.2.2 with
      | none => .error "Invalid RGBA argument"
      | some y0n =>
        let x2 := normalize head.1.2 vmin vmax
        .ok ([(x, y0.1, y1.1), (x2, y0n.1, y1.1)],
             [(x, y0.2.1, y1.2.1), (x2, y0n.2.1, y1.2.1)],
             [(x, y0.2.2, y1.2.2), (x2, y0n.2.2, y1.2.2)])
  | h2 :: t2 =>
    match convert_color head.2.1 with
    | none => .error "Invalid RGBA argument"
    | some y1 =>
      let x := normalize head.1.1 vmin vmax
      match convert_color head.2.2 with
      | none => .error "Invalid RGBA argument"
      | some y0n =>
        match breakLoop vmin vmax y0n h2 t2 with
        | .error e => .error e
        | .ok (rs, gs, bs) =>
          .ok ((x, y0.1, y1.1) :: rs, (x, y0.2.1, y1.2.1) :: gs,
               (x, y0.2.2, y1.2.2) :: bs)

/-- `create_breakpoint_colormap(colors, position)`: default `position`
to the contiguous partition of [0, 1] into `len(colors)` intervals;
check the lengths match (the per-element length-2 checks of the source
are enforced by the pair types here); compute `vmin`/`vmax` over the
flattened positions (raising on a zero-size array); raise
"position must increase" when the first start is close to `vmax`;
otherwise run the emission loop seeded with the black sentinel. -/
def create_breakpoint_colormap (colors : List (Color × Color))
    (position? : Option (List (ℚ × ℚ))) : Except String SegmentTable :=
  let position := position?.getD (positionPairs colors.length)
  if position.length ≠ colors.length then
    .error "position length must be the same as colors"
  else
    match position.zip colors with
    | [] => .error "zero-size array to reduction operation minimum which has no identity"
    | h :: t =>
      let vmin := flatMin position
      let vmax := flatMax position
      if isclose h.1.1 vmax then .error "position must increase"
      else
        match breakLoop vmin vmax (0, 0, 0) h t with
        | .error e => .error e
        | .ok (rs, gs, bs) => .ok ⟨rs, gs, bs⟩

/-- All colors of a list converted left to right, failing at the first
unparseable one. -/
def convertAll : List Color → Option (List (ℚ × ℚ × ℚ))
  | [] => some []
  | c :: rest =>
    match convert_color c with
    | none => none
    | some v =>
      match convertAll rest with
      | none => none
      | some vs => some (v :: vs)

/-- All color pairs of a list converted componentwise, failing at the
first unparseable one. -/
def convertPairs : List (Color × Color) →
    Option (List ((ℚ × ℚ × ℚ) × (ℚ × ℚ × ℚ)))
  | [] => some []
  | (c0, c1) :: rest =>
    match convert_color c0 with
    | none => none
    | some v0 =>
      match convert_color c1 with
      | none => none
      | some v1 =>
        match convertPairs rest with
        | none => none
        | some vs => some ((v0, v1) :: vs)

/-- `qabs` agrees with the lattice absolute value. -/
theorem qabs_eq_abs (x : ℚ) : qabs x = |x| := by
  unfold qabs
  rcases lt_or_le x 0 with h | h
  · rw [if_pos h, abs_of_neg h]
  · rw [if_neg (not_lt.mpr h), abs_of_nonneg h]

/-- Evaluation of the lookup at "red". -/
theorem namedToRGB_red : namedToRGB "red" = some (1, 0, 0) := by rfl

/-- Evaluation of the lookup at "blue". -/
theorem namedToRGB_blue : namedToRGB "blue" = some (0, 0, 1) := by rfl

/-- Evaluation of the lookup at "white". -/
theorem namedToRGB_white : namedToRGB "white" = some (1, 1, 1) := by rfl

/-- Evaluation of the lookup at "black". -/
theorem namedToRGB_black : namedToRGB "black" = some (0, 0, 0) := by rfl

/-- When the domain is non-degenerate, `normalize` is the exact affine
rescale onto [0, 1]. -/
theorem normalize_fin (vmin vmax : ℚ) (h : vmin ≠ vmax) (value : ℚ) :
    normalize value vmin vmax = .fin ((value - vmin) / (vmax - vmin)) := by
  unfold normalize
  rw [if_neg (sub_ne_zero.mpr (Ne.symm h))]

/-- Claim C6: for all vmin < vmax, `normalize(value, vmin, vmax)` equals
`(value - vmin) / (vmax - vmin)`; hence `normalize(vmin) = 0`,
`normalize(vmax) = 1`, and the result lies strictly between 0 and 1 for
every value strictly between vmin and vmax. -/
theorem claim_C6 (value vmin vmax : ℚ) (h : vmin < vmax) :
    normalize value vmin vmax = .fin ((value - vmin) / (vmax - vmin))
    ∧ normalize vmin vmin vmax = .fin 0
    ∧ normalize vmax vmin vmax = .fin 1
    ∧ (vmin < value → value < vmax →
        0 < (value - vmin) / (vmax - vmin)
        ∧ (value - vmin) / (vmax - vmin) < 1) := by
  have hpos : 0 < vmax - vmin := sub_pos.mpr h
  have hne : vmax - vmin ≠ 0 := ne_of_gt hpos
  refine ⟨?_, ?_, ?_, fun h1 h2 => ⟨?_, ?_⟩⟩
  · unfold normalize
    rw [if_neg hne]
  · unfold normalize
    rw [if_neg hne, sub_self, zero_div]
  · unfold normalize
    rw [if_neg hne, div_self hne]
  · exact div_pos (sub_pos.mpr h1) hpos
  · rw [div_lt_one hpos]
    exact sub_lt_sub_right h2 vmin

/-- Witness for claim C6 at value = 1/2, vmin = 0, vmax = 1. -/
theorem claim_C6_witness :
    (0 : ℚ) < 1
    ∧ (normalize (1 / 2 : ℚ) 0 1 = .fin (((1 / 2 : ℚ) - 0) / (1 - 0))
        ∧ normalize (0 : ℚ) 0 1 = .fin 0
        ∧ normalize (1 : ℚ) 0 1 = .fin 1
        ∧ ((0 : ℚ) < 1 / 2 → (1 / 2 : ℚ) < 1 →
            0 < ((1 / 2 : ℚ) - 0) / (1 - 0)
            ∧ ((1 / 2 : ℚ) - 0) / (1 - 0) < 1)) :=
  ⟨by norm_num, claim_C6 (1 / 2) 0 1 (by norm_num)⟩

/-- Claim C5, as stated, is false: a single-anchor continuous build gives
`vmin = vmax = 0`, yet `create_colormap(["red"])` does not fail — it
returns a table whose x values are nan (numpy division of a zero-size
span emits a RuntimeWarning, not an exception). -/
theorem claim_C5_counterexample :
    create_colormap [.named "red"] none false false =
      .ok ⟨[(.nan, 1, 1)], [(.nan, 0, 0)], [(.nan, 0, 0)]⟩ := by
  norm_num [create_colormap, linspace01, listMin, listMax, isclose, qabs,
    normalize, convert_color, namedToRGB_red, namedToRGB_blue, namedToRGB_white,
    namedToRGB_black, to_rgb3, contLoop, bitMap]

/-- Claim C5 (amended): normalization with `vmax = vmin` does not raise;
it yields the IEEE non-finite value nan (when value = vmin) or ±inf
(otherwise), and the degenerate single-anchor build
`create_colormap(["red"])` returns a SegmentTable whose x entries are
nan rather than failing with an input error. -/
theorem claim_C5 :
    (∀ value a : ℚ, normalize value a a =
      if value = a then .nan else if a < value then .posinf else .neginf)
    ∧ create_colormap [.named "red"] none false false =
      .ok ⟨[(.nan, 1, 1)], [(.nan, 0, 0)], [(.nan, 0, 0)]⟩ := by
  constructor
  · intro value a
    unfold normalize
    rw [if_pos (sub_self a)]
    rcases lt_trichotomy value a with hv | hv | hv
    · rw [if_neg (sub_ne_zero.mpr (ne_of_lt hv)),
        if_neg (not_lt.mpr (sub_nonpos.mpr (le_of_lt hv))),
        if_neg (ne_of_lt hv), if_neg (not_lt.mpr (le_of_lt hv))]
    · subst hv
      rw [if_pos (sub_self value), if_pos rfl]
    · rw [if_neg (sub_ne_zero.mpr (ne_of_gt hv)), if_pos (sub_pos.mpr hv),
        if_neg (ne_of_gt hv), if_pos hv]
  · norm_num [create_colormap, linspace01, listMin, listMax, isclose, qabs,
      normalize, convert_color, namedToRGB_red, namedToRGB_blue, namedToRGB_white,
    namedToRGB_black, to_rgb3, contLoop, bitMap]

/-- Claim C7: a tuple containing an integer strictly greater than 1 has
every element divided by 255 before the RGB lookup, and parsing the
8-bit triple (255, 0, 0) agrees with parsing the normalized triple
(1.0, 0.0, 0.0). -/
theorem claim_C7 :
    (∀ a b c : PyNum, hasBigInt [a, b, c] = true →
      convert_color (.rgb a b c) =
        to_rgb3 (a.toQ / 255) (b.toQ / 255) (c.toQ / 255))
    ∧ convert_color (.rgb (.int 255) (.int 0) (.int 0)) =
        convert_color (.rgb (.float 1) (.float 0) (.float 0)) := by
  constructor
  · intro a b c hbig
    simp only [convert_color]
    rw [if_pos hbig]
  · norm_num [convert_color, hasBigInt, to_rgb3, PyNum.toQ]

/-- Witness for claim C7 at the 8-bit triple (255, 0, 0). -/
theorem claim_C7_witness :
    hasBigInt [.int 255, .int 0, .int 0] = true
    ∧ convert_color (.rgb (.int 255) (.int 0) (.int 0)) =
        to_rgb3 ((PyNum.int 255).toQ / 255) ((PyNum.int 0).toQ / 255)
          ((PyNum.int 0).toQ / 255) :=
  ⟨by rfl, claim_C7.1 (.int 255) (.int 0) (.int 0) (by rfl)⟩

/-- Claim C9: supplying a position sequence whose length differs from
the colors sequence makes both builders fail with the fatal
length-mismatch ValueError, returning no table. -/
theorem claim_C9 :
    (∀ (cs : List Color) (ps : List ℚ) (b r : Bool), ps.length ≠ cs.length →
      create_colormap cs (some ps) b r =
        .error "position length must be the same as colors")
    ∧ (∀ (cs : List (Color × Color)) (ps : List (ℚ × ℚ)),
        ps.length ≠ cs.length →
        create_breakpoint_colormap cs (some ps) =
          .error "position length must be the same as colors") := by
  constructor
  · intro cs ps b r hne
    have h2 : ps.length ≠ (if r then cs.reverse else cs).length := by
      cases r <;> simpa using hne
    unfold create_colormap
    simp only [Option.getD_some]
    rw [if_pos h2]
  · intro cs ps hne
    unfold create_breakpoint_colormap
    simp only [Option.getD_some]
    rw [if_pos hne]

/-- Witness for claim C9: an empty position list against one color
(continuous) and one color pair (breakpoint). -/
theorem claim_C9_witness :
    (([] : List ℚ).length ≠ [Color.named "red"].length
      ∧ create_colormap [.named "red"] (some []) false false =
          .error "position length must be the same as colors")
    ∧ (([] : List (ℚ × ℚ)).length ≠ [(Color.named "red", Color.named "blue")].length
      ∧ create_breakpoint_colormap [(.named "red", .named "blue")] (some []) =
          .error "position length must be the same as colors") :=
  ⟨⟨by decide, claim_C9.1 [.named "red"] [] false false (by decide)⟩,
   ⟨by decide, claim_C9.2 [(.named "red", .named "blue")] [] (by decide)⟩⟩

/-- Claim C4, as stated, is false: the source only rejects a breakpoint
position list whose first start is (numerically close to) the maximum of
all positions.  On the non-ascending example
`position = [(0.5, 0.8), (0.0, 0.3)]` the check passes
(0.5 is not close to 0.8) and a table is returned, not an OrderError. -/
theorem claim_C4_counterexample :
    create_breakpoint_colormap
      [(.named "black", .named "white"), (.named "white", .named "red")]
      (some [(1 / 2, 4 / 5), (0, 3 / 10)]) =
    .ok ⟨[(.fin (5 / 8), 0, 0), (.fin 0, 1, 1), (.fin (3 / 8), 1, 1)],
         [(.fin (5 / 8), 0, 0), (.fin 0, 1, 1), (.fin (3 / 8), 0, 1)],
         [(.fin (5 / 8), 0, 0), (.fin 0, 1, 1), (.fin (3 / 8), 0, 1)]⟩ := by
  norm_num [create_breakpoint_colormap, flatMin, flatMax, flatten2, listMin,
    listMax, isclose, qabs, normalize, convert_color, namedToRGB_red,
    namedToRGB_blue, namedToRGB_white, namedToRGB_black, to_rgb3, breakLoop]

/-- Claim C4 (amended): `create_breakpoint_colormap` raises the
ValueError "position must increase" exactly in the case its order check
detects: when the first pair's start is within `np.isclose` tolerance of
the maximum position value (e.g. fully descending input); other
non-ascending position lists, such as `[(0.5, 0.8), (0.0, 0.3)]`, pass
the check and produce a table. -/
theorem claim_C4 (cs : List (Color × Color)) (ps : List (ℚ × ℚ))
    (hlen : ps.length = cs.length) (hne : ps ≠ [])
    (hclose : isclose (ps.headD (0, 0)).1 (flatMax ps) = true) :
    create_breakpoint_colormap cs (some ps) = .error "position must increase" := by
  match ps, cs with
  | [], _ => exact absurd rfl hne
  | p :: ps2, [] => simp at hlen
  | p :: ps2, c :: cs2 =>
    unfold create_breakpoint_colormap
    simp only [Option.getD_some]
    rw [if_neg (by simpa using hlen)]
    simp only [List.zip_cons_cons]
    simp only [List.headD_cons] at hclose
    rw [if_pos hclose]

/-- Witness for claim C4: descending pairs (1, 1/2), (1/2, 0), whose
first start 1 equals the maximum. -/
theorem claim_C4_witness :
    ([((1 : ℚ), (1 / 2 : ℚ)), (1 / 2, 0)].length =
        [(Color.named "black", Color.named "white"),
         (Color.named "white", Color.named "red")].length)
    ∧ ([((1 : ℚ), (1 / 2 : ℚ)), (1 / 2, 0)] ≠ [])
    ∧ isclose (([((1 : ℚ), (1 / 2 : ℚ)), (1 / 2, 0)].headD (0, 0)).1)
        (flatMax [((1 : ℚ), (1 / 2 : ℚ)), (1 / 2, 0)]) = true
    ∧ create_breakpoint_colormap
        [(.named "black", .named "white"), (.named "white", .named "red")]
        (some [(1, 1 / 2), (1 / 2, 0)]) = .error "position must increase" :=
  ⟨by decide, by simp, by norm_num [isclose, qabs, flatMax, flatten2, listMax],
   claim_C4
     [(.named "black", .named "white"), (.named "white", .named "red")]
     [(1, 1 / 2), (1 / 2, 0)] (by decide) (by simp)
     (by norm_num [isclose, qabs, flatMax, flatten2, listMax])⟩

/-- Unfolding of the continuous emission loop on a zipped anchor list
whose colors all parse: one `(x, v, v)` triple per pair, per channel. -/
theorem contLoop_convertAll (vmin vmax : ℚ) :
    ∀ (cs : List Color) (ps : List ℚ) (vs : List (ℚ × ℚ × ℚ)),
      convertAll cs = some vs →
      contLoop vmin vmax (ps.zip cs) =
        .ok ((ps.zip vs).map fun p => (normalize p.1 vmin vmax, p.2.1, p.2.1),
             (ps.zip vs).map fun p => (normalize p.1 vmin vmax, p.2.2.1, p.2.2.1),
             (ps.zip vs).map fun p => (normalize p.1 vmin vmax, p.2.2.2, p.2.2.2)) := by
  intro cs
  induction cs with
  | nil =>
    intro ps vs h
    simp only [convertAll, Option.some.injEq] at h
    subst h
    simp [contLoop]
  | cons c cs ih =>
    intro ps vs h
    simp only [convertAll] at h
    cases hc : convert_color c with
    | none => rw [hc] at h; exact absurd h (by simp)
    | some v =>
      rw [hc] at h
      cases hr : convertAll cs with
      | none => rw [hr] at h; exact absurd h (by simp)
      | some vs2 =>
        rw [hr] at h
        simp only [Option.some.injEq] at h
        subst h
        cases ps with
        | nil => simp [contLoop]
        | cons p ps2 =>
          have hz : (p :: ps2).zip (c :: cs) = (p, c) :: ps2.zip cs := rfl
          have hz2 : (p :: ps2).zip (v :: vs2) = (p, v) :: ps2.zip vs2 := rfl
          rw [hz, hz2]
          simp only [contLoop, hc, ih ps2 vs2 hr, List.map_cons]

/-- Success case of `create_colormap` (bit and reverse off): when the
resolved position list matches the colors in length, is nonempty, has a
first element not close to its maximum, and all colors parse, the
builder emits one `(normalize(pos), v, v)` triple per anchor per
channel. -/
theorem create_colormap_ok (cs : List Color) (pos? : Option (List ℚ))
    (ps : List ℚ) (vs : List (ℚ × ℚ × ℚ))
    (hps : pos?.getD (linspace01 cs.length) = ps)
    (hlen : ps.length = cs.length) (hne : ps ≠ [])
    (hconv : convertAll cs = some vs)
    (hclose : isclose (ps.headD 0) (listMax ps) = false) :
    create_colormap cs pos? false false =
      .ok ⟨(ps.zip vs).map fun p =>
             (normalize p.1 (listMin ps) (listMax ps), p.2.1, p.2.1),
           (ps.zip vs).map fun p =>
             (normalize p.1 (listMin ps) (listMax ps), p.2.2.1, p.2.2.1),
           (ps.zip vs).map fun p =>
             (normalize p.1 (listMin ps) (listMax ps), p.2.2.2, p.2.2.2)⟩ := by
  have hlen2 : ¬ (ps.length ≠ cs.length) := by simpa using hlen
  have hempty : ps.isEmpty = false := by
    cases ps with
    | nil => exact absurd rfl hne
    | cons a l => rfl
  unfold create_colormap
  simp only [Bool.false_eq_true, if_false, hps, if_neg hlen2, hempty,
    hclose, contLoop_convertAll (listMin ps) (listMax ps) cs ps vs hconv]

/-- Claim C8: with `position` omitted, `create_colormap` builds
`np.linspace(0, 1, len(colors))` — `len(colors)` values, the i-th being
`i / (n - 1)`, hence evenly spaced over [0, 1] with both endpoints — and
for any two parseable colors the two-color build yields channel entries
at exactly x = 0.0 and x = 1.0. -/
theorem claim_C8 :
    (∀ n : Nat, (linspace01 n).length = n)
    ∧ (∀ n i : Nat, 2 ≤ n → i < n →
        (linspace01 n)[i]? = some ((i : ℚ) / ((n : ℚ) - 1)))
    ∧ (∀ (c0 c1 : Color) (v0 v1 : ℚ × ℚ × ℚ),
        convert_color c0 = some v0 → convert_color c1 = some v1 →
        create_colormap [c0, c1] none false false =
          .ok ⟨[(.fin 0, v0.1, v0.1), (.fin 1, v1.1, v1.1)],
               [(.fin 0, v0.2.1, v0.2.1), (.fin 1, v1.2.1, v1.2.1)],
               [(.fin 0, v0.2.2, v0.2.2), (.fin 1, v1.2.2, v1.2.2)]⟩) := by
  refine ⟨?_, ?_, ?_⟩
  · intro n
    match n with
    | 0 => rfl
    | 1 => rfl
    | m + 2 =>
      simp only [linspace01, List.length_map, List.length_range]
  · intro n i h2 hi
    obtain ⟨m, rfl⟩ : ∃ m, n = m + 2 := ⟨n - 2, by omega⟩
    simp only [linspace01, List.getElem?_map, List.getElem?_range hi]
    rfl
  · intro c0 c1 v0 v1 h0 h1
    have hconv : convertAll [c0, c1] = some [v0, v1] := by
      simp [convertAll, h0, h1]
    have hl : linspace01 2 = [0, 1] := by
      norm_num [linspace01, List.range_succ]
    rw [create_colormap_ok [c0, c1] none [0, 1] [v0, v1]
      (by rw [Option.getD_none]; exact hl) rfl (by simp) hconv
      (by norm_num [isclose, qabs, listMax])]
    norm_num [normalize, listMin, listMax]

/-- Witness for claim C8 with the parseable colors "blue" and "red". -/
theorem claim_C8_witness :
    convert_color (.named "blue") = some (0, 0, 1)
    ∧ convert_color (.named "red") = some (1, 0, 0)
    ∧ create_colormap [.named "blue", .named "red"] none false false =
        .ok ⟨[(.fin 0, 0, 0), (.fin 1, 1, 1)],
             [(.fin 0, 0, 0), (.fin 1, 0, 0)],
             [(.fin 0, 1, 1), (.fin 1, 0, 0)]⟩ :=
  ⟨by rfl, by rfl,
   claim_C8.2.2 (.named "blue") (.named "red") (0, 0, 1) (1, 0, 0)
     (by rfl) (by rfl)⟩

/-- Claim C1, as stated, is false on descending positions: with
`colors = ["red", "blue"]` and `position = [1, 0]` the source reverses
both lists before emitting, so the table (first conjunct) is not the
in-input-order table the claim predicts (second conjunct): the claim
would put pair 0 — the anchor (1, "red") — first, at x = 1. -/
theorem claim_C1_counterexample :
    create_colormap [.named "red", .named "blue"] (some [1, 0]) false false =
      .ok ⟨[(.fin 0, 0, 0), (.fin 1, 1, 1)],
           [(.fin 0, 0, 0), (.fin 1, 0, 0)],
           [(.fin 0, 1, 1), (.fin 1, 0, 0)]⟩
    ∧ create_colormap [.named "red", .named "blue"] (some [1, 0]) false false ≠
      .ok ⟨[(.fin 1, 1, 1), (.fin 0, 0, 0)],
           [(.fin 1, 0, 0), (.fin 0, 0, 0)],
           [(.fin 1, 0, 0), (.fin 0, 1, 1)]⟩ := by
  have h : create_colormap [.named "red", .named "blue"] (some [1, 0]) false false =
      .ok ⟨[(.fin 0, 0, 0), (.fin 1, 1, 1)],
           [(.fin 0, 0, 0), (.fin 1, 0, 0)],
           [(.fin 0, 1, 1), (.fin 1, 0, 0)]⟩ := by
    norm_num [create_colormap, listMin, listMax, isclose, qabs, contLoop,
      convert_color, namedToRGB_red, namedToRGB_blue, to_rgb3, normalize]
  refine ⟨h, ?_⟩
  rw [h]
  intro hcon
  simp only [Except.ok.injEq, SegmentTable.mk.injEq, List.cons.injEq,
    Prod.mk.injEq, PFloat.fin.injEq] at hcon
  norm_num at hcon

/-- Claim C1 (amended): provided the anchor list is given in the
ascending presentation — the first position not within `np.isclose`
tolerance of the position maximum, so the auto-reversal does not fire —
each `(position, color)` pair contributes exactly one triple
`(x, v, v)` per channel in input order, with
`x = (position - vmin) / (vmax - vmin)`; for descending input the code
first reverses both lists, so contributions appear in reversed input
order.  The concrete blue/white/red scenario holds as stated. -/
theorem claim_C1 :
    (∀ (cs : List Color) (ps : List ℚ) (vs : List (ℚ × ℚ × ℚ)),
      ps.length = cs.length → ps ≠ [] →
      convertAll cs = some vs →
      isclose (ps.headD 0) (listMax ps) = false →
      listMin ps ≠ listMax ps →
      create_colormap cs (some ps) false false =
        .ok ⟨(ps.zip vs).map fun p =>
               (.fin ((p.1 - listMin ps) / (listMax ps - listMin ps)),
                p.2.1, p.2.1),
             (ps.zip vs).map fun p =>
               (.fin ((p.1 - listMin ps) / (listMax ps - listMin ps)),
                p.2.2.1, p.2.2.1),
             (ps.zip vs).map fun p =>
               (.fin ((p.1 - listMin ps) / (listMax ps - listMin ps)),
                p.2.2.2, p.2.2.2)⟩)
    ∧ create_colormap [.named "blue", .named "white", .named "red"] none
        false false =
      .ok ⟨[(.fin 0, 0, 0), (.fin (1 / 2), 1, 1), (.fin 1, 1, 1)],
           [(.fin 0, 0, 0), (.fin (1 / 2), 1, 1), (.fin 1, 0, 0)],
           [(.fin 0, 1, 1), (.fin (1 / 2), 1, 1), (.fin 1, 0, 0)]⟩ := by
  constructor
  · intro cs ps vs hlen hne hconv hclose hminmax
    rw [create_colormap_ok cs (some ps) ps vs rfl hlen hne hconv hclose]
    simp only [normalize_fin (listMin ps) (listMax ps) hminmax]
  · have hl : linspace01 3 = [0, 1 / 2, 1] := by
      norm_num [linspace01, List.range_succ]
    have hconv : convertAll [Color.named "blue", .named "white", .named "red"] =
        some [(0, 0, 1), (1, 1, 1), (1, 0, 0)] := by rfl
    rw [create_colormap_ok [.named "blue", .named "white", .named "red"] none
      [0, 1 / 2, 1] [(0, 0, 1), (1, 1, 1), (1, 0, 0)]
      (by rw [Option.getD_none]; exact hl) rfl (by simp) hconv
      (by norm_num [isclose, qabs, listMax])]
    norm_num [normalize, listMin, listMax]

/-- Witness for claim C1 at the ascending blue/white/red anchors. -/
theorem claim_C1_witness :
    ([(0 : ℚ), 1 / 2, 1].length =
        [Color.named "blue", Color.named "white", Color.named "red"].length)
    ∧ ([(0 : ℚ), 1 / 2, 1] ≠ [])
    ∧ convertAll [.named "blue", .named "white", .named "red"] =
        some [(0, 0, 1), (1, 1, 1), (1, 0, 0)]
    ∧ isclose ([(0 : ℚ), 1 / 2, 1].headD 0) (listMax [0, 1 / 2, 1]) = false
    ∧ listMin [(0 : ℚ), 1 / 2, 1] ≠ listMax [0, 1 / 2, 1]
    ∧ create_colormap [.named "blue", .named "white", .named "red"]
        (some [0, 1 / 2, 1]) false false =
      .ok ⟨([(0 : ℚ), 1 / 2, 1].zip
              [((0 : ℚ), (0 : ℚ), (1 : ℚ)), (1, 1, 1), (1, 0, 0)]).map fun p =>
             (.fin ((p.1 - listMin [0, 1 / 2, 1]) /
                (listMax [0, 1 / 2, 1] - listMin [0, 1 / 2, 1])), p.2.1, p.2.1),
           ([(0 : ℚ), 1 / 2, 1].zip
              [((0 : ℚ), (0 : ℚ), (1 : ℚ)), (1, 1, 1), (1, 0, 0)]).map fun p =>
             (.fin ((p.1 - listMin [0, 1 / 2, 1]) /
                (listMax [0, 1 / 2, 1] - listMin [0, 1 / 2, 1])), p.2.2.1, p.2.2.1),
           ([(0 : ℚ), 1 / 2, 1].zip
              [((0 : ℚ), (0 : ℚ), (1 : ℚ)), (1, 1, 1), (1, 0, 0)]).map fun p =>
             (.fin ((p.1 - listMin [0, 1 / 2, 1]) /
                (listMax [0, 1 / 2, 1] - listMin [0, 1 / 2, 1])), p.2.2.2, p.2.2.2)⟩ := by
  refine ⟨by decide, by simp, by rfl, ?_, ?_, ?_⟩
  · norm_num [isclose, qabs, listMax]
  · norm_num [listMin, listMax]
  · exact claim_C1.1 [.named "blue", .named "white", .named "red"]
      [0, 1 / 2, 1] [(0, 0, 1), (1, 1, 1), (1, 0, 0)]
      (by decide) (by simp) (by rfl)
      (by norm_num [isclose, qabs, listMax])
      (by norm_num [listMin, listMax])

/-- Claim C3, as stated, is false: on descending positions the source
reverses colors together with positions, so
`create_colormap(colors, [1, 0])` pairs "blue" with x = 0, while
`create_colormap(colors, [0, 1])` (same colors, positions reversed)
pairs "red" with x = 0 — the tables differ. -/
theorem claim_C3_counterexample :
    create_colormap [.named "red", .named "blue"] (some [(1 : ℚ), 0])
        false false ≠
      create_colormap [.named "red", .named "blue"] (some [(0 : ℚ), 1])
        false false := by
  have h1 : create_colormap [.named "red", .named "blue"] (some [(1 : ℚ), 0])
      false false =
      .ok ⟨[(.fin 0, 0, 0), (.fin 1, 1, 1)],
           [(.fin 0, 0, 0), (.fin 1, 0, 0)],
           [(.fin 0, 1, 1), (.fin 1, 0, 0)]⟩ := by
    norm_num [create_colormap, listMin, listMax, isclose, qabs, contLoop,
      convert_color, namedToRGB_red, namedToRGB_blue, to_rgb3, normalize]
  have h2 : create_colormap [.named "red", .named "blue"] (some [(0 : ℚ), 1])
      false false =
      .ok ⟨[(.fin 0, 1, 1), (.fin 1, 0, 0)],
           [(.fin 0, 0, 0), (.fin 1, 0, 0)],
           [(.fin 0, 0, 0), (.fin 1, 1, 1)]⟩ := by
    norm_num [create_colormap, listMin, listMax, isclose, qabs, contLoop,
      convert_color, namedToRGB_red, namedToRGB_blue, to_rgb3, normalize]
  rw [h1, h2]
  intro hcon
  simp only [Except.ok.injEq, SegmentTable.mk.injEq, List.cons.injEq,
    Prod.mk.injEq, PFloat.fin.injEq] at hcon
  norm_num at hcon

/-- The fold seed is below the max fold. -/
theorem le_foldl_max (xs : List ℚ) (a : ℚ) : a ≤ xs.foldl max a := by
  induction xs generalizing a with
  | nil => exact le_refl a
  | cons x xs ih => exact le_trans (le_max_left a x) (ih (max a x))

/-- Every member is below the max fold. -/
theorem mem_le_foldl_max (xs : List ℚ) (a x : ℚ) (hx : x ∈ xs) :
    x ≤ xs.foldl max a := by
  induction xs generalizing a with
  | nil => cases hx
  | cons y ys ih =>
    rcases List.mem_cons.mp hx with h | h
    · subst h
      exact le_trans (le_max_right a x) (le_foldl_max ys (max a x))
    · exact ih (max a y) h

/-- The max fold is the seed or a member. -/
theorem foldl_max_choice (xs : List ℚ) (a : ℚ) :
    xs.foldl max a = a ∨ xs.foldl max a ∈ xs := by
  induction xs generalizing a with
  | nil => exact Or.inl rfl
  | cons x xs ih =>
    rcases ih (max a x) with h | h
    · rcases max_choice a x with hm | hm
      · exact Or.inl (by rw [List.foldl_cons, h, hm])
      · refine Or.inr ?_
        rw [List.foldl_cons, h, hm]
        exact List.mem_cons_self x xs
    · exact Or.inr (List.mem_cons_of_mem x h)

/-- `listMax` is an upper bound of the list. -/
theorem listMax_ub (l : List ℚ) (x : ℚ) (hx : x ∈ l) : x ≤ listMax l := by
  cases l with
  | nil => cases hx
  | cons y ys =>
    rcases List.mem_cons.mp hx with h | h
    · subst h
      exact le_foldl_max ys x
    · exact mem_le_foldl_max ys y x h

/-- `listMax` of a nonempty list is a member. -/
theorem listMax_mem (l : List ℚ) (h : l ≠ []) : listMax l ∈ l := by
  cases l with
  | nil => exact absurd rfl h
  | cons y ys =>
    rcases foldl_max_choice ys y with h2 | h2
    · rw [listMax, h2]
      exact List.mem_cons_self y ys
    · rw [listMax]
      exact List.mem_cons_of_mem y h2

/-- `listMax` is determined by membership and the upper-bound property. -/
theorem listMax_eq_of (l : List ℚ) (m : ℚ) (hm : m ∈ l)
    (hub : ∀ x ∈ l, x ≤ m) : listMax l = m :=
  le_antisymm (hub _ (listMax_mem l (List.ne_nil_of_mem hm))) (listMax_ub l m hm)

/-- `np.max` is invariant under reversal. -/
theorem listMax_reverse (l : List ℚ) (h : l ≠ []) :
    listMax l.reverse = listMax l :=
  listMax_eq_of l.reverse (listMax l) (List.mem_reverse.mpr (listMax_mem l h))
    fun x hx => listMax_ub l x (List.mem_reverse.mp hx)

/-- The fold seed is above the min fold. -/
theorem foldl_min_le (xs : List ℚ) (a : ℚ) : xs.foldl min a ≤ a := by
  induction xs generalizing a with
  | nil => exact le_refl a
  | cons x xs ih => exact le_trans (ih (min a x)) (min_le_left a x)

/-- Every member is above the min fold. -/
theorem foldl_min_le_mem (xs : List ℚ) (a x : ℚ) (hx : x ∈ xs) :
    xs.foldl min a ≤ x := by
  induction xs generalizing a with
  | nil => cases hx
  | cons y ys ih =>
    rcases List.mem_cons.mp hx with h | h
    · subst h
      exact le_trans (foldl_min_le ys (min a x)) (min_le_right a x)
    · exact ih (min a y) h

/-- The min fold is the seed or a member. -/
theorem foldl_min_choice (xs : List ℚ) (a : ℚ) :
    xs.foldl min a = a ∨ xs.foldl min a ∈ xs := by
  induction xs generalizing a with
  | nil => exact Or.inl rfl
  | cons x xs ih =>
    rcases ih (min a x) with h | h
    · rcases min_choice a x with hm | hm
      · exact Or.inl (by rw [List.foldl_cons, h, hm])
      · refine Or.inr ?_
        rw [List.foldl_cons, h, hm]
        exact List.mem_cons_self x xs
    · exact Or.inr (List.mem_cons_of_mem x h)

/-- `listMin` is a lower bound of the list. -/
theorem listMin_lb (l : List ℚ) (x : ℚ) (hx : x ∈ l) : listMin l ≤ x := by
  cases l with
  | nil => cases hx
  | cons y ys =>
    rcases List.mem_cons.mp hx with h | h
    · subst h
      exact foldl_min_le ys x
    · exact foldl_min_le_mem ys y x h

/-- `listMin` of a nonempty list is a member. -/
theorem listMin_mem (l : List ℚ) (h : l ≠ []) : listMin l ∈ l := by
  cases l with
  | nil => exact absurd rfl h
  | cons y ys =>
    rcases foldl_min_choice ys y with h2 | h2
    · rw [listMin, h2]
      exact List.mem_cons_self y ys
    · rw [listMin]
      exact List.mem_cons_of_mem y h2

/-- `listMin` is determined by membership and the lower-bound property. -/
theorem listMin_eq_of (l : List ℚ) (m : ℚ) (hm : m ∈ l)
    (hlb : ∀ x ∈ l, m ≤ x) : listMin l = m :=
  le_antisymm (listMin_lb l m hm) (hlb _ (listMin_mem l (List.ne_nil_of_mem hm)))

/-- `np.min` is invariant under reversal. -/
theorem listMin_reverse (l : List ℚ) (h : l ≠ []) :
    listMin l.reverse = listMin l :=
  listMin_eq_of l.reverse (listMin l) (List.mem_reverse.mpr (listMin_mem l h))
    fun x hx => listMin_lb l x (List.mem_reverse.mp hx)

/-- On a strictly descending nonempty list the head is the maximum. -/
theorem listMax_of_desc (l : List ℚ) (hne : l ≠ [])
    (hd : l.Pairwise (fun a b => b < a)) : listMax l = l.headD 0 := by
  cases l with
  | nil => exact absurd rfl hne
  | cons p ps =>
    refine listMax_eq_of (p :: ps) p (List.mem_cons_self p ps) ?_
    intro x hx
    rcases List.mem_cons.mp hx with h | h
    · exact le_of_eq h
    · exact le_of_lt ((List.pairwise_cons.mp hd).1 x h)

/-- On a strictly ascending nonempty list the head is the minimum. -/
theorem listMin_of_asc (l : List ℚ) (hne : l ≠ [])
    (hd : l.Pairwise (fun a b => a < b)) : listMin l = l.headD 0 := by
  cases l with
  | nil => exact absurd rfl hne
  | cons p ps =>
    refine listMin_eq_of (p :: ps) p (List.mem_cons_self p ps) ?_
    intro x hx
    rcases List.mem_cons.mp hx with h | h
    · exact le_of_eq h.symm
    · exact le_of_lt ((List.pairwise_cons.mp hd).1 x h)

/-- `qabs` is nonnegative. -/
theorem qabs_nonneg (x : ℚ) : 0 ≤ qabs x := by
  unfold qabs
  rcases lt_or_le x 0 with h | h
  · rw [if_pos h]
    linarith
  · rw [if_neg (not_lt.mpr h)]
    exact h

/-- `np.isclose(a, a)` always holds. -/
theorem isclose_self (a : ℚ) : isclose a a = true := by
  unfold isclose
  rw [decide_eq_true_eq, sub_self]
  have h0 : qabs 0 = 0 := by norm_num [qabs]
  rw [h0]
  have hq : 0 ≤ qabs a := qabs_nonneg a
  have : (0 : ℚ) ≤ 1 / 100000 * qabs a := by positivity
  linarith

/-- Claim C3 (amended): a strictly descending position list is
auto-corrected, but by reversing colors and positions together:
`create_colormap(colors, positions)` equals
`create_colormap(reversed(colors), reversed(positions))` — not
`create_colormap(colors, reversed(positions))` with the same color
order, which pairs the colors with different positions.  The domain must
not be `np.isclose`-degenerate, or the re-reversed call reverses again. -/
theorem claim_C3 (cs : List Color) (ps : List ℚ) (b r : Bool)
    (hdesc : ps.Pairwise (fun a b => b < a)) (hne : ps ≠ [])
    (hsep : isclose (listMin ps) (listMax ps) = false) :
    create_colormap cs (some ps) b r =
      create_colormap cs.reverse (some ps.reverse) b r := by
  have hne2 : ps.reverse ≠ [] := by
    simpa using hne
  have hmax : listMax ps.reverse = listMax ps := listMax_reverse ps hne
  have hmin : listMin ps.reverse = listMin ps := listMin_reverse ps hne
  have hheadL : ps.headD 0 = listMax ps := (listMax_of_desc ps hne hdesc).symm
  have hascr : ps.reverse.Pairwise (fun a b => a < b) := by
    rw [List.pairwise_reverse]
    exact hdesc
  have hheadR : ps.reverse.headD 0 = listMin ps := by
    rw [← hmin]
    exact (listMin_of_asc ps.reverse hne2 hascr).symm
  have hE1 : ps.isEmpty = false := by
    cases ps with
    | nil => exact absurd rfl hne
    | cons a l => rfl
  have hE2 : ps.reverse.isEmpty = false := by
    cases hpr : ps.reverse with
    | nil => exact absurd hpr hne2
    | cons a l => rfl
  have hcloseL : isclose (ps.headD 0) (listMax ps) = true := by
    rw [hheadL]
    exact isclose_self (listMax ps)
  have hcloseR : isclose (ps.reverse.headD 0) (listMax ps) = false := by
    rw [hheadR]
    exact hsep
  unfold create_colormap
  cases r with
  | false =>
    simp only [Bool.false_eq_true, if_false, Option.getD_some, List.length_reverse,
      hE1, hE2, hmax, hmin, hcloseL, hcloseR, if_true, List.reverse_reverse]
  | true =>
    simp only [if_true, Option.getD_some, List.length_reverse,
      hE1, hE2, hmax, hmin, hcloseL, hcloseR, Bool.false_eq_true, if_false,
      List.reverse_reverse]

/-- Witness for claim C3 at colors ["red", "blue"], positions [1, 0]. -/
theorem claim_C3_witness :
    ([(1 : ℚ), 0].Pairwise (fun a b => b < a))
    ∧ ([(1 : ℚ), 0] ≠ [])
    ∧ isclose (listMin [(1 : ℚ), 0]) (listMax [(1 : ℚ), 0]) = false
    ∧ create_colormap [.named "red", .named "blue"] (some [(1 : ℚ), 0])
        false false =
      create_colormap [Color.named "red", Color.named "blue"].reverse
        (some ([(1 : ℚ), 0].reverse)) false false :=
  ⟨by decide, by simp, by norm_num [isclose, qabs, listMin, listMax, min_def, max_def],
   claim_C3 [.named "red", .named "blue"] [(1 : ℚ), 0] false false
     (by decide) (by simp)
     (by norm_num [isclose, qabs, listMin, listMax, min_def, max_def])⟩

/-- Inversion of `convertPairs` on a cons cell. -/
theorem convertPairs_cons (c : Color × Color) (l : List (Color × Color))
    (pv : List ((ℚ × ℚ × ℚ) × (ℚ × ℚ × ℚ)))
    (h : convertPairs (c :: l) = some pv) :
    ∃ w0 w1 pv2, convert_color c.1 = some w0 ∧ convert_color c.2 = some w1
      ∧ convertPairs l = some pv2 ∧ pv = (w0, w1) :: pv2 := by
  obtain ⟨c0, c1⟩ := c
  simp only [convertPairs] at h
  cases h0 : convert_color c0 with
  | none => rw [h0] at h; cases h
  | some w0 =>
    rw [h0] at h
    cases h1 : convert_color c1 with
    | none => rw [h1] at h; cases h
    | some w1 =>
      rw [h1] at h
      cases h2 : convertPairs l with
      | none => rw [h2] at h; cases h
      | some pv2 =>
        rw [h2] at h
        exact ⟨w0, w1, pv2, rfl, rfl, rfl, (Option.some.inj h).symm⟩

/-- Unfolding of the breakpoint emission loop when every color parses:
one `(normalize(start), incoming, outgoing)` triple per pair in order
(incoming seeded with the carried `y0`), then the trailing entry at the
last stop with the final incoming/outgoing values. -/
theorem breakLoop_ok (vmin vmax : ℚ) :
    ∀ (t : List ((ℚ × ℚ) × (Color × Color))) (hd : (ℚ × ℚ) × (Color × Color))
      (y0 : ℚ × ℚ × ℚ) (v : (ℚ × ℚ × ℚ) × (ℚ × ℚ × ℚ))
      (vs : List ((ℚ × ℚ × ℚ) × (ℚ × ℚ × ℚ))),
      convertPairs (hd.2 :: t.map Prod.snd) = some (v :: vs) →
      breakLoop vmin vmax y0 hd t =
        .ok ((((hd :: t).map fun e => e.1.1).zip
                ((y0.1 :: (v :: vs).map fun w => w.2.1).zip
                  ((v :: vs).map fun w => w.1.1))).map
               (fun z => (normalize z.1 vmin vmax, z.2.1, z.2.2)) ++
             [(normalize ((hd :: t).getLastD hd).1.2 vmin vmax,
               ((v :: vs).getLastD v).2.1, ((v :: vs).getLastD v).1.1)],
             (((hd :: t).map fun e => e.1.1).zip
                ((y0.2.1 :: (v :: vs).map fun w => w.2.2.1).zip
                  ((v :: vs).map fun w => w.1.2.1))).map
               (fun z => (normalize z.1 vmin vmax, z.2.1, z.2.2)) ++
             [(normalize ((hd :: t).getLastD hd).1.2 vmin vmax,
               ((v :: vs).getLastD v).2.2.1, ((v :: vs).getLastD v).1.2.1)],
             (((hd :: t).map fun e => e.1.1).zip
                ((y0.2.2 :: (v :: vs).map fun w => w.2.2.2).zip
                  ((v :: vs).map fun w => w.1.2.2))).map
               (fun z => (normalize z.1 vmin vmax, z.2.1, z.2.2)) ++
             [(normalize ((hd :: t).getLastD hd).1.2 vmin vmax,
               ((v :: vs).getLastD v).2.2.2, ((v :: vs).getLastD v).1.2.2)]) := by
  intro t
  induction t with
  | nil =>
    intro hd y0 v vs hconv
    obtain ⟨w0, w1, pv2, h0, h1, hrest, hpv⟩ := convertPairs_cons _ _ _ hconv
    simp only [List.map_nil, convertPairs, Option.some.injEq] at hrest
    subst hrest
    simp only [List.cons.injEq] at hpv
    obtain ⟨hv, hvs⟩ := hpv
    subst hv
    subst hvs
    simp [breakLoop, h0, h1]
  | cons h2 t2 ih =>
    intro hd y0 v vs hconv
    obtain ⟨w0, w1, pvt, h0, h1, hrest, hpv⟩ := convertPairs_cons _ _ _ hconv
    rw [List.map_cons] at hrest
    obtain ⟨u0, u1, pv2, g0, g1, grest, gpv⟩ := convertPairs_cons _ _ _ hrest
    subst gpv
    simp only [List.cons.injEq] at hpv
    obtain ⟨hv, hvs⟩ := hpv
    subst hv
    subst hvs
    have hrec := ih h2 w1 (u0, u1) pv2 hrest
    simp only [breakLoop, h0, h1, hrec, List.map_cons, List.zip_cons_cons,
      List.cons_append, List.getLastD_cons]

/-- Mapping a function of the left component over a zip of equal-length
lists is mapping it over the left list. -/
theorem zip_map_left {γ : Type} :
    ∀ (ps : List (ℚ × ℚ)) (cs : List (Color × Color)) (f : (ℚ × ℚ) → γ),
      ps.length = cs.length →
      ((ps.zip cs).map fun e => f e.1) = ps.map f := by
  intro ps
  induction ps with
  | nil =>
    intro cs f hlen
    simp
  | cons p ps2 ih =>
    intro cs f hlen
    cases cs with
    | nil => simp at hlen
    | cons c cs2 =>
      simp only [List.zip_cons_cons, List.map_cons]
      rw [ih cs2 f (by simpa using hlen)]

/-- The second components of a zip of equal-length lists. -/
theorem zip_map_snd :
    ∀ (ps : List (ℚ × ℚ)) (cs : List (Color × Color)),
      ps.length = cs.length → (ps.zip cs).map Prod.snd = cs := by
  intro ps
  induction ps with
  | nil =>
    intro cs hlen
    cases cs with
    | nil => simp
    | cons c cs2 => simp at hlen
  | cons p ps2 ih =>
    intro cs hlen
    cases cs with
    | nil => simp at hlen
    | cons c cs2 =>
      simp only [List.zip_cons_cons, List.map_cons]
      rw [ih cs2 (by simpa using hlen)]

/-- `getLastD` of a zip of equal-length lists is the pair of the
`getLastD`s. -/
theorem zip_getLastD {α β : Type} :
    ∀ (xs : List α) (ys : List β) (d : α) (e : β),
      xs.length = ys.length →
      (xs.zip ys).getLastD (d, e) = (xs.getLastD d, ys.getLastD e) := by
  intro xs
  induction xs with
  | nil =>
    intro ys d e hlen
    cases ys with
    | nil => rfl
    | cons y ys2 => simp at hlen
  | cons x xs2 ih =>
    intro ys d e hlen
    cases ys with
    | nil => simp at hlen
    | cons y ys2 =>
      simp only [List.zip_cons_cons, List.getLastD_cons]
      exact ih ys2 x y (by simpa using hlen)

/-- `getLastD` of a nonempty list does not depend on the default. -/
theorem getLastD_irrel {α : Type} (a : α) (l : List α) (d e : α) :
    (a :: l).getLastD d = (a :: l).getLastD e := by
  simp only [List.getLastD_cons]

/-- Claim C2: for accepted breakpoint input the builder emits, per
channel and in order, one triple `(normalize(start_i), incoming_i,
outgoing_i)` per anchor — `outgoing_i` the parsed first color of pair i,
`incoming_i` the parsed second color of pair i-1 (black sentinel for
i = 0) — followed by one trailing triple at the normalized stop of the
last pair with the final incoming/outgoing values; with default
positions, `[("black","white"), ("white","red")]` yields an entry at
x = 0.5 whose entry and exit values are both white. -/
theorem claim_C2 :
    (∀ (cs : List (Color × Color)) (ps : List (ℚ × ℚ))
       (vs : List ((ℚ × ℚ × ℚ) × (ℚ × ℚ × ℚ))),
      ps.length = cs.length → ps ≠ [] →
      convertPairs cs = some vs →
      isclose (ps.headD (0, 0)).1 (flatMax ps) = false →
      create_breakpoint_colormap cs (some ps) =
        .ok ⟨((ps.map fun q => q.1).zip
                ((0 :: vs.map fun w => w.2.1).zip (vs.map fun w => w.1.1))).map
               (fun z => (normalize z.1 (flatMin ps) (flatMax ps), z.2.1, z.2.2)) ++
             [(normalize (ps.getLastD (0, 0)).2 (flatMin ps) (flatMax ps),
               (vs.getLastD ((0, 0, 0), (0, 0, 0))).2.1,
               (vs.getLastD ((0, 0, 0), (0, 0, 0))).1.1)],
             ((ps.map fun q => q.1).zip
                ((0 :: vs.map fun w => w.2.2.1).zip (vs.map fun w => w.1.2.1))).map
               (fun z => (normalize z.1 (flatMin ps) (flatMax ps), z.2.1, z.2.2)) ++
             [(normalize (ps.getLastD (0, 0)).2 (flatMin ps) (flatMax ps),
               (vs.getLastD ((0, 0, 0), (0, 0, 0))).2.2.1,
               (vs.getLastD ((0, 0, 0), (0, 0, 0))).1.2.1)],
             ((ps.map fun q => q.1).zip
                ((0 :: vs.map fun w => w.2.2.2).zip (vs.map fun w => w.1.2.2))).map
               (fun z => (normalize z.1 (flatMin ps) (flatMax ps), z.2.1, z.2.2)) ++
             [(normalize (ps.getLastD (0, 0)).2 (flatMin ps) (flatMax ps),
               (vs.getLastD ((0, 0, 0), (0, 0, 0))).2.2.2,
               (vs.getLastD ((0, 0, 0), (0, 0, 0))).1.2.2)]⟩)
    ∧ create_breakpoint_colormap
        [(.named "black", .named "white"), (.named "white", .named "red")]
        none =
      .ok ⟨[(.fin 0, 0, 0), (.fin (1 / 2), 1, 1), (.fin 1, 1, 1)],
           [(.fin 0, 0, 0), (.fin (1 / 2), 1, 1), (.fin 1, 0, 1)],
           [(.fin 0, 0, 0), (.fin (1 / 2), 1, 1), (.fin 1, 0, 1)]⟩ := by
  constructor
  · intro cs ps vs hlen hne hconv hclose
    cases ps with
    | nil => exact absurd rfl hne
    | cons p ps2 =>
    cases cs with
    | nil => simp at hlen
    | cons c cs2 =>
    have hlen2 : ps2.length = cs2.length := by simpa using hlen
    obtain ⟨w0, w1, pvt, h0, h1, hrest, hpv⟩ := convertPairs_cons _ _ _ hconv
    subst hpv
    have hsnd : (ps2.zip cs2).map Prod.snd = cs2 := zip_map_snd ps2 cs2 hlen2
    have hconv2 : convertPairs ((p, c).2 :: (ps2.zip cs2).map Prod.snd) =
        some ((w0, w1) :: pvt) := by
      rw [hsnd]
      exact hconv
    have hbl := breakLoop_ok (flatMin (p :: ps2)) (flatMax (p :: ps2))
      (ps2.zip cs2) (p, c) (0, 0, 0) (w0, w1) pvt hconv2
    have hstart : (((p, c) :: ps2.zip cs2).map fun e => e.1.1) =
        (p :: ps2).map fun q => q.1 := by
      simp only [List.map_cons]
      rw [zip_map_left ps2 cs2 (fun q => q.1) hlen2]
    have hzc : (p :: ps2).zip (c :: cs2) = (p, c) :: ps2.zip cs2 := rfl
    have hg1 : ((p, c) :: ps2.zip cs2).getLastD (p, c) =
        ((p :: ps2).getLastD (0, 0), (c :: cs2).getLastD c) := by
      rw [← hzc, zip_getLastD (p :: ps2) (c :: cs2) p c (by simpa using hlen),
        getLastD_irrel p ps2 p (0, 0)]
    have hg2 : (((w0, w1) :: pvt)).getLastD (w0, w1) =
        ((w0, w1) :: pvt).getLastD ((0, 0, 0), (0, 0, 0)) :=
      getLastD_irrel (w0, w1) pvt (w0, w1) ((0, 0, 0), (0, 0, 0))
    unfold create_breakpoint_colormap
    simp only [Option.getD_some]
    rw [if_neg (by simpa using hlen)]
    simp only [List.zip_cons_cons]
    simp only [List.headD_cons] at hclose
    rw [if_neg (by simp [hclose])]
    rw [hbl]
    simp only [hstart, hg1, hg2]
  · norm_num [create_breakpoint_colormap, positionPairs, linspace01,
      List.range_succ, flatMin, flatMax, flatten2, listMin, listMax, isclose,
      qabs, breakLoop, convert_color, namedToRGB_black, namedToRGB_white,
      namedToRGB_red, to_rgb3, normalize, min_def, max_def]

/-- Witness for claim C2 at the default-position black/white →
white/red breakpoint build. -/
theorem claim_C2_witness :
    ([((0 : ℚ), (1 : ℚ) / 2), ((1 : ℚ) / 2, 1)] ≠ [])
    ∧ convertPairs [(Color.named "black", Color.named "white"),
        (Color.named "white", Color.named "red")] =
      some [((0, 0, 0), (1, 1, 1)), ((1, 1, 1), (1, 0, 0))]
    ∧ isclose (([((0 : ℚ), (1 : ℚ) / 2), ((1 : ℚ) / 2, 1)].headD (0, 0)).1)
        (flatMax [((0 : ℚ), (1 : ℚ) / 2), ((1 : ℚ) / 2, 1)]) = false
    ∧ create_breakpoint_colormap
        [(.named "black", .named "white"), (.named "white", .named "red")]
        (some [(0, 1 / 2), (1 / 2, 1)]) =
      .ok ⟨[(.fin 0, 0, 0), (.fin (1 / 2), 1, 1), (.fin 1, 1, 1)],
           [(.fin 0, 0, 0), (.fin (1 / 2), 1, 1), (.fin 1, 0, 1)],
           [(.fin 0, 0, 0), (.fin (1 / 2), 1, 1), (.fin 1, 0, 1)]⟩ := by
  refine ⟨by simp, by rfl,
    by norm_num [isclose, qabs, flatMax, flatten2, listMax, max_def], ?_⟩
  have h := claim_C2.1
    [(.named "black", .named "white"), (.named "white", .named "red")]
    [(0, 1 / 2), (1 / 2, 1)]
    [((0, 0, 0), (1, 1, 1)), ((1, 1, 1), (1, 0, 0))]
    (by decide) (by simp) (by rfl)
    (by norm_num [isclose, qabs, flatMax, flatten2, listMax, max_def])
  rw [h]
  norm_num [flatMin, flatMax, flatten2, listMin, listMax, min_def, max_def,
    normalize]

/-- The continuous loop emits one triple per input pair. -/
theorem contLoop_length (vmin vmax : ℚ) :
    ∀ (l : List (ℚ × Color)) (R G B : List Entry),
      contLoop vmin vmax l = .ok (R, G, B) →
      R.length = l.length ∧ G.length = l.length ∧ B.length = l.length := by
  intro l
  induction l with
  | nil =>
    intro R G B h
    simp only [contLoop, Except.ok.injEq, Prod.mk.injEq] at h
    obtain ⟨h1, h2, h3⟩ := h
    subst h1
    subst h2
    subst h3
    simp
  | cons pc rest ih =>
    intro R G B h
    obtain ⟨pos, c⟩ := pc
    simp only [contLoop] at h
    cases hc : convert_color c with
    | none => rw [hc] at h; cases h
    | some v =>
      rw [hc] at h
      cases hr : contLoop vmin vmax rest with
      | error e => rw [hr] at h; cases h
      | ok t =>
        obtain ⟨rs, gs, bs⟩ := t
        rw [hr] at h
        simp only [Except.ok.injEq, Prod.mk.injEq] at h
        obtain ⟨h1, h2, h3⟩ := h
        subst h1
        subst h2
        subst h3
        obtain ⟨e1, e2, e3⟩ := ih rs gs bs hr
        simp [e1, e2, e3]

/-- The breakpoint loop emits the pair count plus the trailing entry:
head pair + tail pairs + one closing triple. -/
theorem breakLoop_length (vmin vmax : ℚ) :
    ∀ (t : List ((ℚ × ℚ) × (Color × Color))) (hd : (ℚ × ℚ) × (Color × Color))
      (y0 : ℚ × ℚ × ℚ) (R G B : List Entry),
      breakLoop vmin vmax y0 hd t = .ok (R, G, B) →
      R.length = t.length + 2 ∧ G.length = t.length + 2
        ∧ B.length = t.length + 2 := by
  intro t
  induction t with
  | nil =>
    intro hd y0 R G B h
    simp only [breakLoop] at h
    cases hc : convert_color hd.2.1 with
    | none => rw [hc] at h; cases h
    | some y1 =>
      rw [hc] at h
      cases hc2 : convert_color hd.2.2 with
      | none => rw [hc2] at h; cases h
      | some y0n =>
        rw [hc2] at h
        simp only [Except.ok.injEq, Prod.mk.injEq] at h
        obtain ⟨h1, h2, h3⟩ := h
        subst h1
        subst h2
        subst h3
        simp
  | cons h2 t2 ih =>
    intro hd y0 R G B h
    simp only [breakLoop] at h
    cases hc : convert_color hd.2.1 with
    | none => rw [hc] at h; cases h
    | some y1 =>
      rw [hc] at h
      cases hc2 : convert_color hd.2.2 with
      | none => rw [hc2] at h; cases h
      | some y0n =>
        simp only [hc2] at h
        cases hr : breakLoop vmin vmax y0n h2 t2 with
        | error e => rw [hr] at h; cases h
        | ok tr =>
          obtain ⟨rs, gs, bs⟩ := tr
          simp only [hr, Except.ok.injEq, Prod.mk.injEq] at h
          obtain ⟨h1, h2x, h3⟩ := h
          subst h1
          subst h2x
          subst h3
          obtain ⟨e1, e2, e3⟩ := ih h2 y0n rs gs bs hr
          refine ⟨?_, ?_, ?_⟩ <;>
            simp only [List.length_cons, e1, e2, e3]

/-- The `bit=True` transform preserves the list length. -/
theorem bitMap_length : ∀ (l l2 : List Color), bitMap l = .ok l2 →
    l2.length = l.length := by
  intro l
  induction l with
  | nil =>
    intro l2 h
    simp only [bitMap, Except.ok.injEq] at h
    subst h
    rfl
  | cons c rest ih =>
    intro l2 h
    simp only [bitMap] at h
    cases hb : bit255 c with
    | error e => rw [hb] at h; cases h
    | ok c2 =>
      rw [hb] at h
      cases hr : bitMap rest with
      | error e => rw [hr] at h; cases h
      | ok rest2 =>
        rw [hr] at h
        simp only [Except.ok.injEq] at h
        subst h
        simp [ih rest2 hr]

/-- Channel lengths of a successful continuous build, stated over the
builder body after the reverse flag and position default are resolved. -/
theorem colormap_body_length (colors : List Color) (position : List ℚ)
    (b : Bool) (T : SegmentTable)
    (h : (if position.length ≠ colors.length then
        (.error "position length must be the same as colors" :
          Except String SegmentTable)
      else if position.isEmpty then
        .error "zero-size array to reduction operation minimum which has no identity"
      else
        match (if b then
            bitMap (if isclose (position.headD 0) (listMax position) then
              colors.reverse else colors)
          else
            .ok (if isclose (position.headD 0) (listMax position) then
              colors.reverse else colors)) with
        | .error e => .error e
        | .ok colors3 =>
          match contLoop (listMin position) (listMax position)
              ((if isclose (position.headD 0) (listMax position) then
                position.reverse else position).zip colors3) with
          | .error e => .error e
          | .ok (rs, gs, bs) => .ok ⟨rs, gs, bs⟩) = .ok T) :
    T.red.length = colors.length ∧ T.green.length = colors.length
      ∧ T.blue.length = colors.length := by
  by_cases h1 : position.length ≠ colors.length
  · rw [if_pos h1] at h
    cases h
  · rw [if_neg h1] at h
    by_cases h2 : position.isEmpty = true
    · rw [if_pos h2] at h
      cases h
    · rw [if_neg h2] at h
      cases hB : (if b then
          bitMap (if isclose (position.headD 0) (listMax position) then
            colors.reverse else colors)
        else
          .ok (if isclose (position.headD 0) (listMax position) then
            colors.reverse else colors)) with
      | error e => rw [hB] at h; cases h
      | ok colors3 =>
        simp only [hB] at h
        cases hL : contLoop (listMin position) (listMax position)
            ((if isclose (position.headD 0) (listMax position) then
              position.reverse else position).zip colors3) with
        | error e => rw [hL] at h; cases h
        | ok t =>
          obtain ⟨rs, gs, bs⟩ := t
          simp only [hL] at h
          injection h with hT
          subst hT
          obtain ⟨e1, e2, e3⟩ := contLoop_length _ _ _ _ _ _ hL
          rw [List.length_zip] at e1 e2 e3
          have hpos2 : (if isclose (position.headD 0) (listMax position) then
              position.reverse else position).length = position.length := by
            split <;> simp
          have hcol2 : (if isclose (position.headD 0) (listMax position) then
              colors.reverse else colors).length = colors.length := by
            split <;> simp
          have hc3 : colors3.length = colors.length := by
            cases b with
            | false =>
              simp only [Bool.false_eq_true, if_false, Except.ok.injEq] at hB
              rw [← hB, hcol2]
            | true =>
              simp only [if_true] at hB
              rw [bitMap_length _ _ hB, hcol2]
          have hlenEq : position.length = colors.length := not_ne_iff.mp h1
          rw [hpos2, hc3, hlenEq, min_self] at e1 e2 e3
          exact ⟨e1, e2, e3⟩

/-- Channel lengths of a successful breakpoint build, stated over the
builder body after the position default is resolved. -/
theorem breakpoint_body_length (colors : List (Color × Color))
    (position : List (ℚ × ℚ)) (T : SegmentTable)
    (h : (if position.length ≠ colors.length then
        (.error "position length must be the same as colors" :
          Except String SegmentTable)
      else
        match position.zip colors with
        | [] => .error "zero-size array to reduction operation minimum which has no identity"
        | hd :: t =>
          if isclose hd.1.1 (flatMax position) then
            .error "position must increase"
          else
            match breakLoop (flatMin position) (flatMax position) (0, 0, 0)
                hd t with
            | .error e => .error e
            | .ok (rs, gs, bs) => .ok ⟨rs, gs, bs⟩) = .ok T) :
    T.red.length = colors.length + 1 ∧ T.green.length = colors.length + 1
      ∧ T.blue.length = colors.length + 1 := by
  by_cases h1 : position.length ≠ colors.length
  · rw [if_pos h1] at h
    cases h
  · rw [if_neg h1] at h
    cases hz : position.zip colors with
    | nil => rw [hz] at h; cases h
    | cons hd t =>
      simp only [hz] at h
      by_cases h2 : isclose hd.1.1 (flatMax position) = true
      · rw [if_pos h2] at h
        cases h
      · rw [if_neg h2] at h
        cases hL : breakLoop (flatMin position) (flatMax position) (0, 0, 0)
            hd t with
        | error e => rw [hL] at h; cases h
        | ok tr =>
          obtain ⟨rs, gs, bs⟩ := tr
          simp only [hL] at h
          injection h with hT
          subst hT
          obtain ⟨e1, e2, e3⟩ := breakLoop_length _ _ _ _ _ _ _ _ hL
          have hzl : t.length + 1 = colors.length := by
            have := congrArg List.length hz
            rw [List.length_zip, not_ne_iff.mp h1, min_self] at this
            simpa using this.symm
          refine ⟨?_, ?_, ?_⟩ <;> simp only [e1, e2, e3] <;> omega

/-- Claim C10: whenever a build succeeds, the three channel sequences of
the returned table have the same length — `create_colormap` with n
anchors yields n triples per channel, `create_breakpoint_colormap` with
n anchor pairs yields n + 1 (one per anchor plus the trailing entry). -/
theorem claim_C10 :
    (∀ (cs : List Color) (pos? : Option (List ℚ)) (b r : Bool)
       (T : SegmentTable),
      create_colormap cs pos? b r = .ok T →
      T.red.length = cs.length ∧ T.green.length = cs.length
        ∧ T.blue.length = cs.length)
    ∧ (∀ (cs : List (Color × Color)) (pos? : Option (List (ℚ × ℚ)))
       (T : SegmentTable),
      create_breakpoint_colormap cs pos? = .ok T →
      T.red.length = cs.length + 1 ∧ T.green.length = cs.length + 1
        ∧ T.blue.length = cs.length + 1) := by
  constructor
  · intro cs pos? b r T h
    unfold create_colormap at h
    cases r with
    | false =>
      simp only [Bool.false_eq_true, if_false] at h
      exact colormap_body_length cs (pos?.getD (linspace01 cs.length)) b T h
    | true =>
      simp only [if_true] at h
      have := colormap_body_length cs.reverse
        (pos?.getD (linspace01 cs.reverse.length)) b T h
      simpa using this
  · intro cs pos? T h
    unfold create_breakpoint_colormap at h
    exact breakpoint_body_length cs (pos?.getD (positionPairs cs.length)) T h

/-- Witness for claim C10: a one-anchor continuous build (1 triple per
channel) and a one-pair breakpoint build (2 triples per channel). -/
theorem claim_C10_witness :
    ((⟨[(.nan, 1, 1)], [(.nan, 0, 0)], [(.nan, 0, 0)]⟩ :
        SegmentTable).red.length = 1
      ∧ (⟨[(.nan, 1, 1)], [(.nan, 0, 0)], [(.nan, 0, 0)]⟩ :
          SegmentTable).green.length = 1
      ∧ (⟨[(.nan, 1, 1)], [(.nan, 0, 0)], [(.nan, 0, 0)]⟩ :
          SegmentTable).blue.length = 1)
    ∧ ((⟨[(.fin 0, 0, 0), (.fin 1, 1, 0)], [(.fin 0, 0, 0), (.fin 1, 1, 0)],
          [(.fin 0, 0, 0), (.fin 1, 1, 0)]⟩ : SegmentTable).red.length = 2
      ∧ (⟨[(.fin 0, 0, 0), (.fin 1, 1, 0)], [(.fin 0, 0, 0), (.fin 1, 1, 0)],
          [(.fin 0, 0, 0), (.fin 1, 1, 0)]⟩ : SegmentTable).green.length = 2
      ∧ (⟨[(.fin 0, 0, 0), (.fin 1, 1, 0)], [(.fin 0, 0, 0), (.fin 1, 1, 0)],
          [(.fin 0, 0, 0), (.fin 1, 1, 0)]⟩ : SegmentTable).blue.length = 2) :=
  ⟨claim_C10.1 [.named "red"] none false false
     ⟨[(.nan, 1, 1)], [(.nan, 0, 0)], [(.nan, 0, 0)]⟩
     (by norm_num [create_colormap, linspace01, listMin, listMax, isclose,
       qabs, normalize, convert_color, namedToRGB_red, to_rgb3, contLoop,
       bitMap]),
   claim_C10.2 [(.named "black", .named "white")] none
     ⟨[(.fin 0, 0, 0), (.fin 1, 1, 0)], [(.fin 0, 0, 0), (.fin 1, 1, 0)],
      [(.fin 0, 0, 0), (.fin 1, 1, 0)]⟩
     (by norm_num [create_breakpoint_colormap, positionPairs, linspace01,
       List.range_succ, flatMin, flatMax, flatten2, listMin, listMax, isclose,
       qabs, breakLoop, convert_color, namedToRGB_black, namedToRGB_white,
       to_rgb3, normalize, min_def, max_def])⟩

end CustomColormaps
